import Mathlib

/-!
Verification of the multislog fan-out logger core.

Shallow embedding of the Go sources:
  - multi_handler.go      : the fan-out dispatcher (type multihandler)
  - multislog.go          : the Multislog lifecycle manager (New, Close, options)
  - email_handler.go      : the email sink
  - openLogFile           : the path sandbox resolver, including a faithful
                            port of Go path/filepath.Clean for Unix paths.

Records, times and locations are modelled as plain data; machine effects
(writes to sinks, closes of OS handles, calls to os.OpenFile) are modelled
as explicit event traces so that the dispatch and teardown order and the
error flow are visible to theorems.
-/

namespace MSL

/-- Model of a Go time.Location value: identified by its zone name. -/
structure Loc where
  name : String
deriving DecidableEq, Repr

/-- time.UTC -/
def utc : Loc := ⟨"UTC"⟩

/-- Model of a Go time.Time: an absolute instant plus the location used to
render it.  time.Time.In changes only the location, never the instant. -/
structure Time where
  instant : Int
  loc : Loc
deriving DecidableEq, Repr

/-- Model of the Go method t.In(l): same instant, rendered in location l. -/
def timeIn (t : Time) (l : Loc) : Time := ⟨t.instant, l⟩

/-- Model of a slog.Attr key/value pair. -/
structure Attr where
  key : String
  val : String
deriving DecidableEq, Repr

/-- Model of a slog.Record: severity level (slog.Level is an int), timestamp,
message and ordered attributes. -/
structure Record where
  time : Time
  level : Int
  message : String
  attrs : List Attr
deriving DecidableEq, Repr

/-- The timestamp rewrite at the top of multihandler.Handle
(multi_handler.go): `if mh.tz != nil { r.Time = r.Time.In(mh.tz) }`. -/
def normalizeRecord (tz : Option Loc) (r : Record) : Record :=
  match tz with
  | some l => { r with time := timeIn r.time l }
  | none => r

/-- The slog.Handler interface as a record of operations over a sink type H.
This mirrors the dynamic dispatch `h.Enabled / h.Handle / h.WithAttrs /
h.WithGroup` performed by multihandler on its contained handlers.  A sink
handle call may fail; the dispatcher sees that failure as a value. -/
structure SinkOps (H : Type) where
  enabled : H → Int → Bool
  handle : H → Record → Except String Unit
  withAttrs : H → List Attr → H
  withGroup : H → String → H

/-- The multihandler struct of multi_handler.go: an optional timezone
pointer and a slice of handlers. -/
structure multihandler (H : Type) where
  tz : Option Loc
  handlers : List H

/-- multihandler.Enabled: true iff some contained handler is enabled
at the level (the Go loop returns true at the first enabled handler). -/
def mhEnabled (i : SinkOps H) (mh : multihandler H) (level : Int) : Bool :=
  mh.handlers.any (fun h => i.enabled h level)

/-- The fan-out loop inside multihandler.Handle:
`for _, h := range mh.handlers { if h.Enabled(ctx, r.Level) { _ = h.Handle(ctx, r) } }`.
The returned trace lists, in loop order, each invoked handler together with
the record it was given and the (discarded) result of its Handle call. -/
def fanout (i : SinkOps H) (r : Record) : List H → List (H × Record × Except String Unit)
  | [] => []
  | h :: hs =>
    if i.enabled h r.level then (h, r, i.handle h r) :: fanout i r hs
    else fanout i r hs

/-- multihandler.Handle: rewrite the timestamp once if a timezone is set,
then fan out.  The Go method discards every per-sink error (`_ =`) and ends
with `return nil`; accordingly the overall result is ok, and the per-sink
side effects are reported as the trace. -/
def mhHandle (i : SinkOps H) (mh : multihandler H) (r : Record) :
    Except String Unit × List (H × Record × Except String Unit) :=
  let r1 := normalizeRecord mh.tz r
  (Except.ok (), fanout i r1 mh.handlers)

/-- multihandler.WithAttrs: builds a fresh slice whose i-th entry is
`mh.handlers[i].WithAttrs(attrs)` and returns a fresh multihandler with the
same tz.  The method writes no field of the receiver; the second component
returns the receiver as it stands after the call, making that explicit. -/
def mhWithAttrs (i : SinkOps H) (mh : multihandler H) (attrs : List Attr) :
    multihandler H × multihandler H :=
  (⟨mh.tz, mh.handlers.map (fun h => i.withAttrs h attrs)⟩, mh)

/-- multihandler.WithGroup: same shape as WithAttrs with per-handler
WithGroup. -/
def mhWithGroup (i : SinkOps H) (mh : multihandler H) (g : String) :
    multihandler H × multihandler H :=
  (⟨mh.tz, mh.handlers.map (fun h => i.withGroup h g)⟩, mh)

/-! ### Lifecycle manager: Multislog, New, options, Close (part_001) -/

/-- The four option constructors of the package.  EnableTimezone carries the
already loaded location (time.LoadLocation failures make New panic and are
outside these claims); the other three carry the externally constructed
handler value they append, and EnableLogFile additionally records the file
handle it stores into ms.logFile. -/
inductive MsOption (H : Type) where
  | enableTimezone (tz : Loc)
  | enableConsole (h : H)
  | enableLogFile (h : H) (f : Nat)
  | enableEmail (h : H)
deriving DecidableEq, Repr

/-- The mutable fields of struct Multislog that New and Close touch. -/
structure Multislog (H : Type) where
  logFile : Option Nat
  timezone : Loc
  handlers : List H
deriving DecidableEq, Repr

/-- The state action of one option, as applied by the loop in New. -/
def applyOption (ms : Multislog H) : MsOption H → Multislog H
  | .enableTimezone tz => { ms with timezone := tz }
  | .enableConsole h => { ms with handlers := ms.handlers ++ [h] }
  | .enableLogFile h f => { ms with logFile := some f, handlers := ms.handlers ++ [h] }
  | .enableEmail h => { ms with handlers := ms.handlers ++ [h] }

/-- New: start from a zero Multislog, set timezone to UTC, apply every
option in order, then build the multihandler from the accumulated handlers
and timezone.  Returns the final Multislog state and the multihandler the
logger wraps. -/
def msNew (opts : List (MsOption H)) : Multislog H × multihandler H :=
  let ms := opts.foldl applyOption { logFile := none, timezone := utc, handlers := [] }
  (ms, { tz := some ms.timezone, handlers := ms.handlers })

/-- The close capability used by Multislog.Close: `closeable` models the
type assertion `h.(interface{ Close() error })`, and `close` the Close call,
whose error is only printed to stderr. -/
structure CloseOps (H : Type) where
  closeable : H → Bool
  close : H → Except String Unit

/-- One observable teardown action: a Close call on a sink (with its
result, which Multislog.Close only reports to stderr) or a Close on the
owned log file handle. -/
inductive CloseEvent (H : Type) where
  | closeSink (h : H) (result : Except String Unit)
  | closeFile (f : Nat)
deriving Repr

/-- The first loop of Multislog.Close: for each handler in order, if it
exposes Close, call it (continuing regardless of the result). -/
def closeSinks (i : CloseOps H) : List H → List (CloseEvent H)
  | [] => []
  | h :: hs =>
    if i.closeable h then CloseEvent.closeSink h (i.close h) :: closeSinks i hs
    else closeSinks i hs

/-- The sinks named by the sink-close events of a trace, in order. -/
def closedSinks (evs : List (CloseEvent H)) : List H :=
  evs.filterMap (fun e => match e with
    | CloseEvent.closeSink h _ => some h
    | CloseEvent.closeFile _ => none)

/-- Multislog.Close: close the closeable handlers first, in registration
order; then, if ms.logFile is non-nil, close it and set it to nil.  The Go
method returns nothing and raises nothing; all close errors go to stderr.
The handlers slice is left as it is.  Result: the post state and the trace
of close events in the order they were performed. -/
def msClose (i : CloseOps H) (ms : Multislog H) : Multislog H × List (CloseEvent H) :=
  let sinkEvents := closeSinks i ms.handlers
  match ms.logFile with
  | some f => ({ ms with logFile := none }, sinkEvents ++ [CloseEvent.closeFile f])
  | none => (ms, sinkEvents)

/-! ### Email sink (email_handler.go, smtp_client.go) -/

/-- smtpClient config fields (smtp_client.go). -/
structure SmtpClient where
  host : String
  port : String
  username : String
  password : String
  sender : String
  recipient : String
deriving DecidableEq, Repr

/-- emailHandler: an smtp client and a minimum level. -/
structure EmailHandler where
  smtpClient : SmtpClient
  level : Int
deriving DecidableEq, Repr

/-- emailHandler.Enabled: `level >= eh.Level`. -/
def ehEnabled (eh : EmailHandler) (level : Int) : Bool :=
  decide (level ≥ eh.level)

/-- The payload handed to smtpClient.Send by emailHandler.Handle: subject
"Log Alert" and a body assembled from the record level, time, message and
the fold over the record attributes, sent to the configured recipient. -/
structure EmailMsg where
  subject : String
  level : Int
  time : Time
  message : String
  attrPairs : List Attr
  recipient : String
deriving DecidableEq, Repr

/-- emailHandler.Handle: below the threshold nothing is sent and nil is
returned; otherwise the message is assembled purely from the record and the
configured recipient and handed to Send (modelled by the send argument); a
send error is wrapped and returned.  The first component reports the
message given to Send, if any. -/
def ehHandle (send : EmailMsg → Except String Unit) (eh : EmailHandler) (r : Record) :
    Option EmailMsg × Except String Unit :=
  if r.level < eh.level then (none, Except.ok ())
  else
    let msg : EmailMsg :=
      ⟨"Log Alert", r.level, r.time, r.message, r.attrs, eh.smtpClient.recipient⟩
    (some msg,
      match send msg with
      | Except.ok _ => Except.ok ()
      | Except.error e => Except.error ("logger could not send email: " ++ e))

/-- emailHandler.WithAttrs: `return eh` — the receiver, unchanged. -/
def ehWithAttrs (eh : EmailHandler) (_ : List Attr) : EmailHandler := eh

/-- emailHandler.WithGroup: `return eh` — the receiver, unchanged. -/
def ehWithGroup (eh : EmailHandler) (_ : String) : EmailHandler := eh

/-! ### Path sandbox resolver (openLogFile) and path/filepath.Clean

Paths are lists of characters; os.PathSeparator is the slash.  clean is a
faithful port of the Go standard library path/filepath.Clean for Unix
paths (the lazybuf algorithm).  The output buffer is kept reversed; the
lazybuf write index w is the buffer length. -/

/-- The backtracking loop of the dotdot case of Clean:
`out.w--; for out.w > dotdot && out.index(out.w) != '/' { out.w-- }`.
`out` is the live (reversed) buffer after the unconditional pop and `c` is
the character most recently popped, which is what out.index(out.w) reads. -/
def btLoop (dd : Nat) : List Char → Char → List Char
  | [], _ => []
  | c1 :: rest, c =>
    if (c1 :: rest).length > dd ∧ c ≠ '/' then btLoop dd rest c1
    else c1 :: rest

/-- The dotdot ("..") case of the Clean loop: backtrack one element if the
buffer extends past dotdot; otherwise, when not rooted, append ".." (with a
separator when the buffer is nonempty) and advance dotdot to the new write
index; when rooted, do nothing. -/
def ddAction (rooted : Bool) (out : List Char) (dd : Nat) : List Char × Nat :=
  if out.length > dd then
    match out with
    | [] => (out, dd)
    | c :: rest => (btLoop dd rest c, dd)
  else if !rooted then
    let out1 := if out.length > 0 then '/' :: out else out
    let out2 := '.' :: '.' :: out1
    (out2, out2.length)
  else (out, dd)

/-- The separator the default (copy an element) case of Clean prepends:
`if rooted && out.w != 1 || !rooted && out.w != 0 { out.append('/') }`. -/
def sepIfNeeded (rooted : Bool) (out : List Char) : List Char :=
  if (rooted ∧ out.length ≠ 1) ∨ (¬rooted ∧ out.length ≠ 0) then '/' :: out else out

/-- The main loop of Clean.  The Bool flag is true while the loop is inside
the element-copying inner loop of the default case (copy characters up to
the next separator); the other cases run with the flag false.  Each step
consumes at least the head of the remaining input, so the recursion is
structural.  Input characters model path bytes; for well formed UTF-8 this
is faithful, since every byte of a multibyte character differs from the
slash and the dot. -/
def cleanCore (rooted : Bool) : Bool → List Char → List Char → Nat → List Char
  | _, [], out, _ => out
  | true, c :: rest, out, dd =>
    if c = '/' then cleanCore rooted false rest out dd
    else cleanCore rooted true rest (c :: out) dd
  | false, '/' :: rest, out, dd => cleanCore rooted false rest out dd
  | false, '.' :: [], out, _ => out
  | false, '.' :: '/' :: rest, out, dd => cleanCore rooted false rest out dd
  | false, '.' :: '.' :: rest, out, dd =>
    if rest = [] ∨ rest.head? = some '/' then
      let p := ddAction rooted out dd
      cleanCore rooted false rest p.1 p.2
    else
      cleanCore rooted true rest ('.' :: '.' :: sepIfNeeded rooted out) dd
  | false, '.' :: c2 :: rest, out, dd =>
    cleanCore rooted true (c2 :: rest) ('.' :: sepIfNeeded rooted out) dd
  | false, c :: rest, out, dd =>
    cleanCore rooted true rest (c :: sepIfNeeded rooted out) dd

/-- path/filepath.Clean for Unix paths: empty input yields ".", a rooted
path starts the buffer at "/" with dotdot = 1, and an empty final buffer
yields ".". -/
def clean (path : List Char) : List Char :=
  match path with
  | [] => ['.']
  | c :: rest =>
    if c = '/' then
      let out := cleanCore true false rest ['/'] 1
      if out.length = 0 then ['.'] else out.reverse
    else
      let out := cleanCore false false (c :: rest) [] 0
      if out.length = 0 then ['.'] else out.reverse

/-- path/filepath.Join for two elements: skip leading empty elements, join
the rest with the separator and Clean the result. -/
def goJoin : List Char → List Char → List Char
  | [], [] => []
  | [], b => clean b
  | a, b => clean (a ++ '/' :: b)

/-- Go os flag constants (Linux values, as used by os.OpenFile). -/
def O_WRONLY : Nat := 0x1

def O_RDWR : Nat := 0x2

def O_CREATE : Nat := 0x40

def O_TRUNC : Nat := 0x200

def O_APPEND : Nat := 0x400

/-- The flag assembly of openLogFile: start from O_CREATE, or in O_RDWR or
O_WRONLY depending on allowRead, then O_TRUNC or O_APPEND depending on
clearOnRestart. -/
def openFlags (allowRead clearOnRestart : Bool) : Nat :=
  let flags := O_CREATE
  let flags := if allowRead then flags ||| O_RDWR else flags ||| O_WRONLY
  let flags := if clearOnRestart then flags ||| O_TRUNC else flags ||| O_APPEND
  flags

/-- The permission chosen by openLogFile: 0644 when allowRead, else 0600. -/
def openPerm (allowRead : Bool) : Nat :=
  if allowRead then 0o644 else 0o600

/-- The distinguishable failure kinds of openLogFile before the OS open. -/
inductive LogFileError where
  | invalidLogFileName
  | logDirMissing
  | escapesBaseDir
deriving DecidableEq, Repr

/-- What openLogFile hands to os.OpenFile on success: the resolved path,
the open flags and the permission bits. -/
structure OpenSpec where
  path : List Char
  flags : Nat
  perm : Nat
deriving DecidableEq, Repr

/-- openLogFile (current version, part_001).  baseDir is the directory of
the symlink-resolved executable path (environment input) and baseDirExists
the outcome of the os.Stat on it.  Steps, in source order: Clean the
filename and reject it if Cleaning changed it or it contains a separator;
Join it onto baseDir; fail if the base directory is missing; reject if
baseDir plus a trailing separator is not a prefix of the joined path plus a
trailing separator; otherwise hand the path, flags and permission to the OS
open.  Note that no symlink resolution is performed on the joined path:
apart from the Stat on baseDir the function consults no filesystem state,
so its outcome is independent of any symlink at the target. -/
def openLogFile (baseDir : List Char) (baseDirExists : Bool) (filename : List Char)
    (allowRead clearOnRestart : Bool) : Except LogFileError OpenSpec :=
  let cleanName := clean filename
  if cleanName ≠ filename ∨ cleanName.contains '/' then
    Except.error LogFileError.invalidLogFileName
  else
    let logPath := goJoin baseDir cleanName
    if ¬ baseDirExists then Except.error LogFileError.logDirMissing
    else if ¬ (baseDir ++ ['/']).isPrefixOf (logPath ++ ['/']) then
      Except.error LogFileError.escapesBaseDir
    else
      Except.ok ⟨logPath, openFlags allowRead clearOnRestart, openPerm allowRead⟩

/-! ### Shared helper lemmas and test doubles -/

deriving instance DecidableEq for Except

/-- A test double sink: a threshold, accumulated attributes and groups, and
a switch making its handle calls fail. -/
structure DSink where
  minLevel : Int
  attrs : List Attr
  groups : List String
  failing : Bool
deriving DecidableEq, Repr

/-- Sink operations of the test double: threshold check, handle that fails
when asked to, derive by appending. -/
def dOps : SinkOps DSink where
  enabled h l := decide (l ≥ h.minLevel)
  handle h _ := if h.failing then Except.error "boom" else Except.ok ()
  withAttrs h as := { h with attrs := h.attrs ++ as }
  withGroup h g := { h with groups := h.groups ++ [g] }

/-- Like dOps but every handle call fails; same enabled predicate. -/
def dFailOps : SinkOps DSink :=
  { dOps with handle := fun _ _ => Except.error "smtp failure" }

def dEx : DSink := ⟨0, [], [], false⟩

def dHi : DSink := ⟨100, [], [], false⟩

def rEx : Record := ⟨⟨1700000000, utc⟩, 5, "hello", [⟨"k", "v"⟩]⟩

def hkt : Loc := ⟨"Asia/Hong_Kong"⟩

def mhEx : multihandler DSink := ⟨some hkt, [dEx, dHi]⟩

/-- The single trace entry mhHandle produces on mhEx and rEx. -/
def eEx : DSink × Record × Except String Unit :=
  (dEx, normalizeRecord (some hkt) rEx, Except.ok ())

theorem normalizeRecord_level (tz : Option Loc) (r : Record) :
    (normalizeRecord tz r).level = r.level := by
  cases tz <;> rfl

theorem fanout_map_fst (i : SinkOps H) (r : Record) (hs : List H) :
    (fanout i r hs).map (fun e => e.1) = hs.filter (fun h => i.enabled h r.level) := by
  induction hs with
  | nil => rfl
  | cons h hs ih =>
    by_cases hc : i.enabled h r.level
    · simp [fanout, hc, ih, List.filter_cons]
    · simp [fanout, hc, ih, List.filter_cons]

theorem fanout_record (i : SinkOps H) (r : Record) (hs : List H) :
    ∀ e ∈ fanout i r hs, e.2.1 = r := by
  induction hs with
  | nil => intro e he; simp [fanout] at he
  | cons h hs ih =>
    intro e he
    by_cases hc : i.enabled h r.level
    · simp [fanout, hc] at he
      rcases he with he | he
      · rw [he]
      · exact ih e he
    · simp [fanout, hc] at he
      exact ih e he

theorem fanout_mem (i : SinkOps H) (r : Record) (hs : List H) :
    ∀ e ∈ fanout i r hs, e.1 ∈ hs := by
  induction hs with
  | nil => intro e he; simp [fanout] at he
  | cons h hs ih =>
    intro e he
    by_cases hc : i.enabled h r.level
    · simp [fanout, hc] at he
      rcases he with he | he
      · simp [he]
      · simp [ih e he]
    · simp [fanout, hc] at he
      simp [ih e he]

theorem fanout_handle_indep (i j : SinkOps H) (r : Record) (hs : List H)
    (henb : i.enabled = j.enabled) :
    (fanout i r hs).map (fun e => (e.1, e.2.1)) =
      (fanout j r hs).map (fun e => (e.1, e.2.1)) := by
  induction hs with
  | nil => rfl
  | cons h hs ih =>
    by_cases hc : i.enabled h r.level
    · simp [fanout, hc, henb ▸ hc, ih]
    · have hc2 : ¬ j.enabled h r.level = true := by rw [← henb]; exact hc
      simp [fanout, hc, hc2, ih]

theorem foldl_applyOption_timezone (opts : List (MsOption H)) (s : Multislog H)
    (hno : ∀ tz, MsOption.enableTimezone tz ∉ opts) :
    (opts.foldl applyOption s).timezone = s.timezone := by
  induction opts generalizing s with
  | nil => rfl
  | cons o opts ih =>
    have hno2 : ∀ tz, MsOption.enableTimezone tz ∉ opts := by
      intro tz hmem
      exact hno tz (List.mem_cons_of_mem _ hmem)
    rw [List.foldl_cons, ih _ hno2]
    cases o with
    | enableTimezone tz => exact absurd (List.mem_cons_self _ _) (hno tz)
    | enableConsole h => rfl
    | enableLogFile h f => rfl
    | enableEmail h => rfl

/-! ### Claim theorems -/

/-- C1: For every record handled by the dispatcher, multihandler.Handle
invokes exactly the contained handlers whose own Enabled check accepts the
record level — the invoked sequence is precisely the filter of the handler
list by that check — and a handler whose Enabled check rejects the level is
never invoked, independently of the other handlers. -/
theorem C1_dispatch_exact_subset {H : Type} (i : SinkOps H) (mh : multihandler H)
    (r : Record) :
    ((mhHandle i mh r).2.map (fun e => e.1)) =
      mh.handlers.filter (fun h => i.enabled h r.level) ∧
    ∀ h, i.enabled h r.level = false →
      h ∉ (mhHandle i mh r).2.map (fun e => e.1) := by
  have hmap : ((mhHandle i mh r).2.map (fun e => e.1)) =
      mh.handlers.filter (fun h => i.enabled h r.level) := by
    show (fanout i (normalizeRecord mh.tz r) mh.handlers).map (fun e => e.1) = _
    rw [fanout_map_fst, normalizeRecord_level]
  refine ⟨hmap, ?_⟩
  intro h hdis hmem
  rw [hmap] at hmem
  have := (List.mem_filter.mp hmem).2
  rw [hdis] at this
  exact Bool.false_ne_true this

/-- Witness for C1: in a dispatcher holding an enabled sink and a disabled
sink, the disabled sink (threshold 100, record level 5) is not invoked. -/
theorem C1_dispatch_exact_subset_witness :
    dHi ∉ (mhHandle dOps mhEx rEx).2.map (fun e => e.1) :=
  (C1_dispatch_exact_subset dOps mhEx rEx).2 dHi (by decide)

/-- C2: Every handler invoked by multihandler.Handle observes the one
record obtained by rewriting the timestamp into the configured timezone
(identical for all handlers, rewrite applied once, before fan-out); when a
timezone is set the observed time is the record instant rendered in that
timezone with level, message and attributes untouched; and a Multislog
built by New from options containing no EnableTimezone gives its
multihandler the UTC timezone. -/
theorem C2_timezone_normalization {H : Type} (i : SinkOps H) (mh : multihandler H)
    (r : Record) :
    (∀ e ∈ (mhHandle i mh r).2, e.2.1 = normalizeRecord mh.tz r) ∧
    (∀ tz, mh.tz = some tz → ∀ e ∈ (mhHandle i mh r).2,
      e.2.1.time = timeIn r.time tz ∧ e.2.1.level = r.level ∧
      e.2.1.message = r.message ∧ e.2.1.attrs = r.attrs) ∧
    (∀ opts : List (MsOption H), (∀ tz, MsOption.enableTimezone tz ∉ opts) →
      ((msNew opts).2).tz = some utc) := by
  refine ⟨?_, ?_, ?_⟩
  · intro e he
    exact fanout_record i (normalizeRecord mh.tz r) mh.handlers e he
  · intro tz htz e he
    have : e.2.1 = normalizeRecord mh.tz r :=
      fanout_record i (normalizeRecord mh.tz r) mh.handlers e he
    rw [this, htz]
    exact ⟨rfl, rfl, rfl, rfl⟩
  · intro opts hno
    show some ((opts.foldl applyOption _).timezone) = some utc
    rw [foldl_applyOption_timezone opts _ hno]

/-- Witness for C2: a concrete dispatcher with the Hong Kong timezone hands
its enabled sink the record with the localized timestamp, and New with only
a console option yields the UTC timezone. -/
theorem C2_timezone_normalization_witness :
    (eEx.2.1.time = timeIn rEx.time hkt ∧
      eEx.2.1.level = rEx.level ∧
      eEx.2.1.message = rEx.message ∧
      eEx.2.1.attrs = rEx.attrs) ∧
    ((msNew [MsOption.enableConsole dEx]).2).tz = some utc := by
  constructor
  · exact (C2_timezone_normalization dOps mhEx rEx).2.1 hkt rfl
      (dEx, normalizeRecord (some hkt) rEx, Except.ok ()) (by decide)
  · exact (C2_timezone_normalization dOps mhEx rEx).2.2 [MsOption.enableConsole dEx]
      (by intro tz h; simp at h)

/-- C7: multihandler.Handle returns ok whatever the per-sink handle results
are (a sink failure is never surfaced to the caller), and the sequence of
invocations — which handler is invoked, with which record — depends only on
the Enabled predicate, not on any handle behaviour: a failing sink changes
no other invocation. -/
theorem C7_sink_errors_isolated {H : Type} (i j : SinkOps H) (mh : multihandler H)
    (r : Record) (henb : i.enabled = j.enabled) :
    (mhHandle i mh r).1 = Except.ok () ∧
    (mhHandle i mh r).2.map (fun e => (e.1, e.2.1)) =
      (mhHandle j mh r).2.map (fun e => (e.1, e.2.1)) := by
  refine ⟨rfl, ?_⟩
  exact fanout_handle_indep i j (normalizeRecord mh.tz r) mh.handlers henb

/-- Witness for C7: with every handle call replaced by a failing one, the
same sinks receive the same records and the dispatcher still returns ok. -/
theorem C7_sink_errors_isolated_witness :
    (mhHandle dOps mhEx rEx).1 = Except.ok () ∧
    (mhHandle dOps mhEx rEx).2.map (fun e => (e.1, e.2.1)) =
      (mhHandle dFailOps mhEx rEx).2.map (fun e => (e.1, e.2.1)) :=
  C7_sink_errors_isolated dOps dFailOps mhEx rEx rfl

/-- C8: WithAttrs and WithGroup build a new dispatcher whose handler list
is exactly the original handlers each derived with the given attributes or
group, with the timezone carried over unchanged; the original dispatcher
value after the call is the one before it (the method writes no field), so
handling a record through the original still fans out to the original,
underived sinks. -/
theorem C8_derive_preserves_original {H : Type} (i : SinkOps H) (mh : multihandler H)
    (as : List Attr) (g : String) :
    (mhWithAttrs i mh as).1.tz = mh.tz ∧
    (mhWithAttrs i mh as).1.handlers = mh.handlers.map (fun h => i.withAttrs h as) ∧
    (mhWithAttrs i mh as).2 = mh ∧
    (mhWithGroup i mh g).1.tz = mh.tz ∧
    (mhWithGroup i mh g).1.handlers = mh.handlers.map (fun h => i.withGroup h g) ∧
    (mhWithGroup i mh g).2 = mh ∧
    (∀ r, mhHandle i (mhWithAttrs i mh as).2 r = mhHandle i mh r) ∧
    (∀ r e, e ∈ (mhHandle i (mhWithAttrs i mh as).2 r).2 → e.1 ∈ mh.handlers) := by
  refine ⟨rfl, rfl, rfl, rfl, rfl, rfl, fun r => rfl, ?_⟩
  intro r e he
  exact fanout_mem i (normalizeRecord mh.tz r) mh.handlers e he

/-- Witness for C8: after deriving mhEx with an attribute, a record emitted
through the original is handled by a sink of the original list (whose
attribute list is still empty). -/
theorem C8_derive_preserves_original_witness :
    eEx.1 ∈ mhEx.handlers :=
  (C8_derive_preserves_original dOps mhEx [⟨"user", "alice"⟩] "grp").2.2.2.2.2.2.2
    rEx eEx (by decide)

/-- Teardown helper lemma: the sinks closed by the sink loop are exactly
the closeable handlers, in registration order, whatever the close results
are. -/
theorem closedSinks_closeSinks (i : CloseOps H) (hs : List H) :
    closedSinks (closeSinks i hs) = hs.filter i.closeable := by
  induction hs with
  | nil => rfl
  | cons h hs ih =>
    by_cases hc : i.closeable h
    · simp [closeSinks, closedSinks, hc, List.filter_cons] at ih ⊢
      exact ih
    · simp [closeSinks, closedSinks, hc, List.filter_cons] at ih ⊢
      exact ih

/-- Teardown helper lemma: no file-close event comes out of the sink loop. -/
theorem closeSinks_no_file (i : CloseOps H) (hs : List H) :
    ∀ f, CloseEvent.closeFile f ∉ closeSinks i hs := by
  induction hs with
  | nil => intro f hmem; simp [closeSinks] at hmem
  | cons h hs ih =>
    intro f hmem
    by_cases hc : i.closeable h
    · simp [closeSinks, hc] at hmem
      exact ih f hmem
    · simp [closeSinks, hc] at hmem
      exact ih f hmem

/-- Example teardown capability: every DSink is closeable and closes ok. -/
def exCloseOps : CloseOps DSink := ⟨fun _ => true, fun _ => Except.ok ()⟩

/-- Like exCloseOps but every close fails; same closeable predicate. -/
def exFailCloseOps : CloseOps DSink := ⟨fun _ => true, fun _ => Except.error "smtp failure"⟩

/-- A Multislog owning one closeable sink and the log file handle 0. -/
def exMs : Multislog DSink := ⟨some 0, utc, [dEx]⟩

/-- Counterexample to C5 as stated: after a first Close of a Multislog with
one closeable sink and an open log file, a second Close is not a no-op — it
invokes Close on the sink again (the handlers slice is never cleared; only
logFile is set to nil). -/
theorem C5_counterexample :
    closedSinks (msClose exCloseOps (msClose exCloseOps exMs).1).2 = [dEx] ∧
    (msClose exCloseOps (msClose exCloseOps exMs).1).2 ≠ [] := by
  constructor
  · rfl
  · intro h
    simp [msClose, exMs, closeSinks, exCloseOps] at h

/-- C5 amended: a second Close leaves the state exactly as one Close did
and never closes the OS file handle again (logFile was cleared to nil by
the first call), and it raises nothing (msClose is a total function into
state and trace) — but it does re-invoke Close on every closeable sink: its
trace is again the full sink-close pass over the handlers. -/
theorem C5_close_idempotence_amended {H : Type} (i : CloseOps H) (ms : Multislog H) :
    (msClose i (msClose i ms).1).1 = (msClose i ms).1 ∧
    (msClose i ms).1.logFile = none ∧
    (∀ f, CloseEvent.closeFile f ∉ (msClose i (msClose i ms).1).2) ∧
    (msClose i (msClose i ms).1).2 = closeSinks i ms.handlers := by
  cases hlf : ms.logFile with
  | none =>
    refine ⟨?_, ?_, ?_, ?_⟩ <;> simp [msClose, hlf]
    exact closeSinks_no_file i ms.handlers
  | some f =>
    refine ⟨?_, ?_, ?_, ?_⟩ <;> simp [msClose, hlf]
    exact closeSinks_no_file i ms.handlers

/-- Witness for C5 amended: on the concrete Multislog, the second Close
never emits a file-close event. -/
theorem C5_close_idempotence_amended_witness :
    CloseEvent.closeFile 0 ∉ (msClose exCloseOps (msClose exCloseOps exMs).1).2 :=
  (C5_close_idempotence_amended exCloseOps exMs).2.2.1 0

/-- C6: Close closes exactly the closeable sinks, in registration order,
and the trace ends with the file close (when a file is owned) strictly
after every sink close; the handlers list survives and logFile is cleared;
and none of this depends on whether the individual closes fail — a close
capability that fails on every sink yields the same closed sinks and the
same final state (failures are only reported, never raised: msClose returns
only state and trace, no error). -/
theorem C6_close_order_and_errors {H : Type} (i j : CloseOps H) (ms : Multislog H)
    (hcl : i.closeable = j.closeable) :
    closedSinks (msClose i ms).2 = ms.handlers.filter i.closeable ∧
    (msClose i ms).2 = closeSinks i ms.handlers ++ ms.logFile.toList.map CloseEvent.closeFile ∧
    (msClose i ms).1.handlers = ms.handlers ∧
    (msClose i ms).1.logFile = none ∧
    closedSinks (msClose j ms).2 = closedSinks (msClose i ms).2 ∧
    (msClose j ms).1 = (msClose i ms).1 := by
  have hmain : ∀ (k : CloseOps H), closedSinks (msClose k ms).2 = ms.handlers.filter k.closeable := by
    intro k
    cases hlf : ms.logFile with
    | none => simp [msClose, hlf, closedSinks_closeSinks]
    | some f =>
      simp [msClose, hlf, closedSinks]
      have := closedSinks_closeSinks k ms.handlers
      simp [closedSinks] at this
      rw [this]
  refine ⟨hmain i, ?_, ?_, ?_, ?_, ?_⟩
  · cases hlf : ms.logFile with
    | none => simp [msClose, hlf]
    | some f => simp [msClose, hlf]
  · cases hlf : ms.logFile with
    | none => simp [msClose, hlf]
    | some f => simp [msClose, hlf]
  · cases hlf : ms.logFile with
    | none => simp [msClose, hlf]
    | some f => simp [msClose, hlf]
  · rw [hmain i, hmain j, hcl]
  · cases hlf : ms.logFile with
    | none => simp [msClose, hlf]
    | some f => simp [msClose, hlf]

/-- Witness for C6: with the all-failing close capability (same closeable
sinks), the same sinks are closed and the final state is the same as with
the succeeding one. -/
theorem C6_close_order_and_errors_witness :
    closedSinks (msClose exFailCloseOps exMs).2 = closedSinks (msClose exCloseOps exMs).2 ∧
    (msClose exFailCloseOps exMs).1 = (msClose exCloseOps exMs).1 := by
  have h := C6_close_order_and_errors exCloseOps exFailCloseOps exMs rfl
  exact ⟨h.2.2.2.2.1, h.2.2.2.2.2⟩

/-- C10: the email sink returns the receiver itself from both derive
operations, so a derived handler is the original one, handling records
identically; and the attribute list of any email it sends comes from the
record alone — the attributes passed to WithAttrs never appear. -/
theorem C10_email_derive_dropped (eh : EmailHandler) (as : List Attr) (g : String)
    (send : EmailMsg → Except String Unit) (r : Record) :
    ehWithAttrs eh as = eh ∧
    ehWithGroup eh g = eh ∧
    ehHandle send (ehWithAttrs eh as) r = ehHandle send eh r ∧
    (∀ m, (ehHandle send (ehWithAttrs eh as) r).1 = some m → m.attrPairs = r.attrs) := by
  refine ⟨rfl, rfl, rfl, ?_⟩
  intro m hm
  by_cases hlt : r.level < eh.level
  · simp [ehHandle, ehWithAttrs, hlt] at hm
  · simp [ehHandle, ehWithAttrs, hlt] at hm
    rw [← hm]

/-- Witness for C10: a concrete warn-level email handler derived with an
extra attribute sends the record attributes only. -/
theorem C10_email_derive_dropped_witness :
    (⟨"Log Alert", rEx.level, rEx.time, rEx.message, rEx.attrs, "to@email.com"⟩ :
      EmailMsg).attrPairs = rEx.attrs :=
  (C10_email_derive_dropped ⟨⟨"h", "p", "u", "pw", "s", "to@email.com"⟩, 4⟩
    [⟨"user", "alice"⟩] "grp" (fun _ => Except.ok ()) rEx).2.2.2
    ⟨"Log Alert", rEx.level, rEx.time, rEx.message, rEx.attrs, "to@email.com"⟩ (by decide)

/-- A representative base directory (the directory of the symlink-resolved
executable path) for the concrete sandbox theorems. -/
def bEx : List Char := "/srv/app".toList

/-- Counterexample to C3 as stated: the resolver does NOT reject filenames
containing non-ASCII bytes.  The name starting with the character U+00E9
passes the Clean check (Clean leaves it unchanged and it contains no
separator) and the containment check, and openLogFile proceeds to the OS
open, which creates the file inside the base directory — as the fuzz seed
with a non-ASCII name in openlogfile_fuzz_test.go also exercises. -/
theorem C3_counterexample :
    openLogFile bEx true (Char.ofNat 233 :: ".log".toList) false true =
      Except.ok ⟨bEx ++ '/' :: Char.ofNat 233 :: ".log".toList,
        openFlags false true, openPerm false⟩ := by
  decide

/-- C3 amended: the sandbox checks reject "../evil.log", "/absolute.log",
"subdir/file.log" and the empty filename (for every base directory and
flag combination), and reject ".." through the containment check; a plain
name like "test.log" is accepted, handed to the OS open (create-if-absent)
directly inside the executable directory.  But ".", names with null bytes
and names with non-ASCII bytes all pass the sandbox checks: "." resolves to
the base directory itself and a null-byte name to a child of it, and both
are handed to the OS open, which is what rejects them (a directory is not
openable write-only, a null byte is not a valid path byte), while a
non-ASCII name is simply accepted and the file is created. -/
theorem C3_sandbox_accept_reject :
    (∀ (b : List Char) (e a c : Bool),
      openLogFile b e "../evil.log".toList a c = Except.error LogFileError.invalidLogFileName ∧
      openLogFile b e "/absolute.log".toList a c = Except.error LogFileError.invalidLogFileName ∧
      openLogFile b e "subdir/file.log".toList a c = Except.error LogFileError.invalidLogFileName ∧
      openLogFile b e "".toList a c = Except.error LogFileError.invalidLogFileName) ∧
    openLogFile bEx true "..".toList false true = Except.error LogFileError.escapesBaseDir ∧
    openLogFile bEx true "test.log".toList false true =
      Except.ok ⟨bEx ++ '/' :: "test.log".toList, openFlags false true, openPerm false⟩ ∧
    openLogFile bEx true ".".toList false true =
      Except.ok ⟨bEx, openFlags false true, openPerm false⟩ ∧
    openLogFile bEx true ['a', Char.ofNat 0, 'b'] false true =
      Except.ok ⟨bEx ++ '/' :: ['a', Char.ofNat 0, 'b'], openFlags false true, openPerm false⟩ := by
  refine ⟨?_, by decide, by decide, by decide, by decide⟩
  intro b e a c
  refine ⟨?_, ?_, ?_, ?_⟩
  · simp only [openLogFile]
    rw [if_pos (Or.inr (by decide))]
  · simp only [openLogFile]
    rw [if_pos (Or.inr (by decide))]
  · simp only [openLogFile]
    rw [if_pos (Or.inr (by decide))]
  · simp only [openLogFile]
    rw [if_pos (Or.inl (by decide))]

/-- C4 (evaluation at the failing input): take a base directory whose entry
evil.log is a pre-existing symlink to a path outside the sandbox.  The
claim requires openLogFile to resolve symlinks on the joined path and fail
before the file is opened.  The current openLogFile has no such step: aside
from the Stat on the base directory it consults no filesystem state at all
(the EvalSymlinks call on the joined path that the earlier revision of the
file performed was removed, replaced by the Stat), so its outcome cannot
depend on the symlink; it accepts the name and hands the unresolved joined
path to os.OpenFile, which follows the symlink out of the sandbox.  The
trailing-separator containment check is evaluated on the unresolved joined
path, which lies under the base directory by construction. -/
theorem C4_symlink_resolution_absent :
    openLogFile bEx true "evil.log".toList false false =
      Except.ok ⟨bEx ++ '/' :: "evil.log".toList, openFlags false false, openPerm false⟩ := by
  decide

/-- C9: whenever openLogFile reaches the OS open, the flags always include
create-if-absent; the access mode (the low two bits) is read-write when
allowRead and write-only otherwise; truncate is set exactly when
clearOnRestart and append exactly when not; and the permission is
world-readable 0644 when allowRead, owner-only 0600 otherwise. -/
theorem C9_open_flags_perm (b : List Char) (e : Bool) (nm : List Char) (a c : Bool)
    (spec : OpenSpec) (h : openLogFile b e nm a c = Except.ok spec) :
    spec.flags &&& 0x3 = (if a then O_RDWR else O_WRONLY) ∧
    spec.flags &&& O_CREATE = O_CREATE ∧
    spec.flags &&& O_TRUNC = (if c then O_TRUNC else 0) ∧
    spec.flags &&& O_APPEND = (if c then 0 else O_APPEND) ∧
    spec.perm = (if a then (0o644 : Nat) else 0o600) := by
  have hfp : spec.flags = openFlags a c ∧ spec.perm = openPerm a := by
    simp only [openLogFile] at h
    split at h
    · simp at h
    · split at h
      · simp at h
      · split at h
        · simp at h
        · have h2 := Except.ok.inj h
          rw [← h2]
          exact ⟨rfl, rfl⟩
  obtain ⟨hf, hp⟩ := hfp
  rw [hf, hp]
  cases a <;> cases c <;> decide

/-- The OpenSpec produced for "test.log" with allowRead and append mode. -/
def specEx : OpenSpec := ⟨bEx ++ '/' :: "test.log".toList, 1090, 420⟩

/-- Witness for C9: the accepted name "test.log" with allowRead set and
clearOnRestart unset yields flags O_CREATE + O_RDWR + O_APPEND = 1090 and
permission 0644 = 420. -/
theorem C9_open_flags_perm_witness :
    specEx.flags &&& 0x3 = (if true then O_RDWR else O_WRONLY) ∧
    specEx.flags &&& O_CREATE = O_CREATE ∧
    specEx.flags &&& O_TRUNC = (if false then O_TRUNC else 0) ∧
    specEx.flags &&& O_APPEND = (if false then 0 else O_APPEND) ∧
    specEx.perm = (if true then (0o644 : Nat) else 0o600) :=
  C9_open_flags_perm bEx true "test.log".toList true false specEx (by decide)

end MSL
